import Mathlib

/-!
Verification of the Match grammar-matching engine (`match/matchers.py`).

Strings are modelled as `List Char`.  The `Match` result class becomes the
mutual inductive `MatchRes`/`Tok` (a result holds a heterogeneous token list of
string fragments and nested results, exactly as in the Python class).  Each
`*Matcher` class becomes a constructor of the inductive `Matcher`; the registry
used by `RefMatcher` is an association list.  The top-level `match` methods
become the fuel-indexed interpreter `matchM`; fuel models the recursion that
the Python version performs directly (an exhausted fuel returns the artificial
`MErr.outOfFuel`, which a real run never produces as long as enough fuel is
supplied).  The two genuine runtime aborts of the source - the `KeyError`
raised by an unbound registry lookup in `RefMatcher.match` and the
`Exception("Infinite loop detected in ...")` raised by `RepeatedMatcher.match`
- become the `MErr.unknownReference` and `MErr.infiniteLoop` errors.
-/

mutual

/-- The heterogeneous token list of `Match.tokens`: entries are either raw
string fragments or nested `Match` nodes. -/
inductive Tok where
  | str : List Char → Tok
  | node : MatchRes → Tok

/-- The `Match` class: `Match(successful, name, tokens, remainder)`. -/
inductive MatchRes where
  | mk : Bool → String → List Tok → List Char → MatchRes

end

/-- `Match.successful`. -/
def MatchRes.successful : MatchRes → Bool
  | .mk b _ _ _ => b

/-- `Match.name`. -/
def MatchRes.name : MatchRes → String
  | .mk _ n _ _ => n

/-- `Match.tokens`. -/
def MatchRes.tokens : MatchRes → List Tok
  | .mk _ _ t _ => t

/-- `Match.remainder`. -/
def MatchRes.remainder : MatchRes → List Char
  | .mk _ _ _ r => r

mutual

/-- `Match.get_match`: concatenate, in order, every token, recursing into
nested `Match` nodes. -/
def getMatch : MatchRes → List Char
  | .mk _ _ toks _ => getMatchToks toks

/-- `Match.get_match` restricted to a token list. -/
def getMatchToks : List Tok → List Char
  | [] => []
  | Tok.str s :: ts => s ++ getMatchToks ts
  | Tok.node r :: ts => getMatch r ++ getMatchToks ts

end

/-- The matcher variants of `matchers.py`:
`LiteralMatcher(name, literal, case_sensitive)`,
`RangeMatcher(name, lower, upper, lower_inclusive, upper_inclusive)`,
`OptionalMatcher(name, matcher)`, `AnyMatcher(name, *matchers)`,
`SequenceMatcher(name, *matchers)`, `RepeatedMatcher(name, matcher)`,
`RefMatcher(ref_name, registry)` (the registry is passed to the interpreter
instead of being stored), and `NotMatcher(name, matcher)`. -/
inductive Matcher where
  | literal : String → List Char → Bool → Matcher
  | range : String → Char → Char → Bool → Bool → Matcher
  | opt : String → Matcher → Matcher
  | any : String → List Matcher → Matcher
  | seq : String → List Matcher → Matcher
  | repeated : String → Matcher → Matcher
  | ref : String → Matcher
  | notm : String → Matcher → Matcher

/-- The registry dict of `RefMatcher`: name-to-matcher bindings. -/
abbrev Reg := List (String × Matcher)

/-- Dict lookup `registry[name]` (re-binding a name prepends, so the first
hit is the current binding). -/
def regLookup : Reg → String → Option Matcher
  | [], _ => none
  | (k, v) :: rest, n => if k = n then some v else regLookup rest n

/-- Runtime aborts: `unknownReference` is the `KeyError` of
`RefMatcher.match`; `infiniteLoop` is the `Exception` of
`RepeatedMatcher.match`; `outOfFuel` is the model artifact for exhausted
fuel. -/
inductive MErr where
  | unknownReference : String → MErr
  | infiniteLoop : String → MErr
  | outOfFuel : MErr
deriving DecidableEq

/-- The `for matcher in self.matchers` loop of `AnyMatcher.match`: first
successful sub-match wins, wrapped as the alternation's own success. -/
def anyLoop (f : Matcher → List Char → Except MErr MatchRes) (name : String)
    (source : List Char) : List Matcher → Except MErr MatchRes
  | [] => .ok (.mk false name [] source)
  | m :: ms =>
    match f m source with
    | .error e => .error e
    | .ok r =>
      if r.successful then .ok (.mk true name [Tok.node r] r.remainder)
      else anyLoop f name source ms

/-- The `for matcher in self.matchers` loop of `SequenceMatcher.match`:
on any failure the whole sequence fails against the original `source`. -/
def seqLoop (f : Matcher → List Char → Except MErr MatchRes) (name : String)
    (source : List Char) : List Matcher → List Char → List MatchRes →
    Except MErr MatchRes
  | [], src, matched => .ok (.mk true name (matched.map Tok.node) src)
  | m :: ms, src, matched =>
    match f m src with
    | .error e => .error e
    | .ok r =>
      if r.successful then seqLoop f name source ms r.remainder (matched ++ [r])
      else .ok (.mk false name [] source)

/-- The `while len(src) > 0` loop of `RepeatedMatcher.match`, with the
`loop_watch` non-progress guard: a first zero-consumption success is
tolerated (appended, flag set), a second consecutive one raises the
infinite-loop error, and a consuming success clears the flag.  The `Nat`
argument is iteration fuel (the loop guard `src = []` is checked first,
as in the source). -/
def repLoop (f : Matcher → List Char → Except MErr MatchRes) (name : String)
    (m : Matcher) : Nat → Bool → List MatchRes → List Char →
    Except MErr MatchRes
  | _, _, matched, [] => .ok (.mk true name (matched.map Tok.node) [])
  | 0, _, _, _ :: _ => .error .outOfFuel
  | budget + 1, loopWatch, matched, c :: rest =>
    match f m (c :: rest) with
    | .error e => .error e
    | .ok r =>
      if r.successful then
        if r.remainder = c :: rest then
          if loopWatch then .error (.infiniteLoop name)
          else repLoop f name m budget true (matched ++ [r]) (c :: rest)
        else repLoop f name m budget false (matched ++ [r]) r.remainder
      else .ok (.mk true name (matched.map Tok.node) (c :: rest))

/-- The `match` method of every matcher variant, as one fuel-indexed
interpreter over the matcher graph.  Each translated branch mirrors the
corresponding Python `match` body:
* `literal`: lower both strings when case-insensitive, test
  `startswith`, on success token `[self.literal]` and remainder
  `source[len(self.literal):]`;
* `range`: fail on empty input, else test
  `lbound <= ord(head) <= ubound` where the bounds are shifted inward by
  one for an exclusive end (computed over `Int`, as Python arithmetic);
* `opt`: wrap a successful sub-match, else succeed with no tokens;
* `any` / `seq` / `repeated`: the loops above;
* `ref`: registry lookup at match time, `KeyError` when unbound;
* `notm`: fail on empty input, succeed taking the first character when the
  sub-matcher fails, fail consuming nothing when it succeeds. -/
def matchM : Nat → Reg → Matcher → List Char → Except MErr MatchRes
  | 0, _, _, _ => .error .outOfFuel
  | fuel + 1, reg, mt, source =>
    match mt with
    | .literal name lit cs =>
      let s := if cs then source else source.map Char.toLower
      let l := if cs then lit else lit.map Char.toLower
      if l.isPrefixOf s then
        .ok (.mk true name [Tok.str lit] (source.drop lit.length))
      else .ok (.mk false name [] source)
    | .range name lo hi loInc hiInc =>
      match source with
      | [] => .ok (.mk false name [] source)
      | head :: rest =>
        let lbound : Int := (lo.toNat : Int) + (if loInc then 0 else 1)
        let ubound : Int := (hi.toNat : Int) - (if hiInc then 0 else 1)
        if lbound ≤ (head.toNat : Int) ∧ (head.toNat : Int) ≤ ubound then
          .ok (.mk true name [Tok.str [head]] rest)
        else .ok (.mk false name [] source)
    | .opt name sub =>
      match matchM fuel reg sub source with
      | .error e => .error e
      | .ok r =>
        if r.successful then .ok (.mk true name [Tok.node r] r.remainder)
        else .ok (.mk true name [] source)
    | .any name ms => anyLoop (matchM fuel reg) name source ms
    | .seq name ms => seqLoop (matchM fuel reg) name source ms source []
    | .repeated name sub => repLoop (matchM fuel reg) name sub fuel false [] source
    | .ref rn =>
      match regLookup reg rn with
      | some sub => matchM fuel reg sub source
      | none => .error (.unknownReference rn)
    | .notm name sub =>
      match source with
      | [] => .ok (.mk false name [] [])
      | head :: rest =>
        match matchM fuel reg sub source with
        | .error e => .error e
        | .ok r =>
          if r.successful then .ok (.mk false name [] source)
          else .ok (.mk true name [Tok.str [head]] rest)

/-- Extract the success flag of a completed run. -/
def runSuccess (e : Except MErr MatchRes) : Bool :=
  match e with
  | .ok r => r.successful
  | .error _ => false

/-- Extract the consumed (flattened) text of a completed run. -/
def runConsumed (e : Except MErr MatchRes) : Option (List Char) :=
  match e with
  | .ok r => some (getMatch r)
  | .error _ => none

/-- Extract the remainder of a completed run. -/
def runRemainder (e : Except MErr MatchRes) : Option (List Char) :=
  match e with
  | .ok r => some r.remainder
  | .error _ => none

/-- Consumed text followed by remainder, for round-trip statements. -/
def runTotal (e : Except MErr MatchRes) : Option (List Char) :=
  match e with
  | .ok r => some (getMatch r ++ r.remainder)
  | .error _ => none

/-- The recursive-grammar scenario: `digit := Range('1','9') | Literal('0')`.
References in the fluent construction layer (`MatchDSL.REF`) resolve at
construction time, so the built graph nests the sub-matchers directly. -/
def digitG : Matcher :=
  .any "digit" [.range "nzd" '1' '9' true true, .literal "zero" ['0'] true]

/-- `positive_integer := digit + Repetition(digit)`. -/
def posIntG : Matcher :=
  .seq "positive_integer" [digitG, .repeated "rep_digit" digitG]

/-- `integer := Literal('0') | positive_integer`. -/
def integerG : Matcher :=
  .any "integer" [.literal "zero" ['0'] true, posIntG]

/-- `whitespace := Repetition(Literal(" "))`. -/
def whitespaceG : Matcher :=
  .repeated "whitespace" (.literal "space" [' '] true)

/-- `w_integer := whitespace + integer + whitespace`. -/
def wIntegerG : Matcher :=
  .seq "w_integer" [whitespaceG, integerG, whitespaceG]

/-- `sum := w_integer + Repetition(Literal("+") + w_integer)`. -/
def sumG : Matcher :=
  .seq "sum"
    [wIntegerG,
     .repeated "rep_plus" (.seq "plus_w_integer" [.literal "plus" ['+'] true, wIntegerG])]

/-- A run of a list of sub-matchers in sequence (as `SequenceMatcher.match`
performs it): each sub-matcher, run by `f` against the current remaining
input, succeeds, and the next starts from its remainder.
`SeqRun f ms src rs out` says matching `ms` in order from `src` produces
exactly the results `rs` and ends with remaining input `out`. -/
inductive SeqRun (f : Matcher → List Char → Except MErr MatchRes) :
    List Matcher → List Char → List MatchRes → List Char → Prop where
  | nil (src : List Char) : SeqRun f [] src [] src
  | cons {m : Matcher} {ms : List Matcher} {src out : List Char}
      {r : MatchRes} {rs : List MatchRes} :
      f m src = .ok r → r.successful = true →
      SeqRun f ms r.remainder rs out → SeqRun f (m :: ms) src (r :: rs) out

mutual

/-- Every `LiteralMatcher` contained in this matcher graph (not through
references) is case-sensitive. -/
def csOnly : Matcher → Bool
  | .literal _ _ cs => cs
  | .range _ _ _ _ _ => true
  | .opt _ m => csOnly m
  | .any _ ms => csOnlyList ms
  | .seq _ ms => csOnlyList ms
  | .repeated _ m => csOnly m
  | .ref _ => true
  | .notm _ m => csOnly m

/-- `csOnly` over a list of sub-matchers. -/
def csOnlyList : List Matcher → Bool
  | [] => true
  | m :: ms => csOnly m && csOnlyList ms

end

/-- Every matcher bound in the registry satisfies `csOnly`. -/
def regCS : Reg → Bool
  | [] => true
  | (_, m) :: rest => csOnly m && regCS rest

/-- `get_match` over a plain list of results, in order. -/
def getMatchList : List MatchRes → List Char
  | [] => []
  | r :: rs => getMatch r ++ getMatchList rs

/-- Soundness of a matching function with respect to the consumption
invariant, on case-sensitive-only matchers: a successful result's
flattened consumed text followed by its remainder is the input. -/
def CsSound (f : Matcher → List Char → Except MErr MatchRes) : Prop :=
  ∀ (m : Matcher) (src : List Char) (r : MatchRes), csOnly m = true →
    f m src = .ok r → r.successful = true → getMatch r ++ r.remainder = src

/-- C3 (counterexample): matching the claimed grammar's `integer` rule
against `"042"` does NOT consume `"042"` with empty remainder - the
ordered alternation tries `Literal('0')` first, which succeeds, so only
`"0"` is consumed and `"42"` remains. -/
theorem claim3_counterexample :
    runSuccess (matchM 50 [] integerG ['0', '4', '2']) = true ∧
    runConsumed (matchM 50 [] integerG ['0', '4', '2']) ≠ some ['0', '4', '2'] ∧
    runRemainder (matchM 50 [] integerG ['0', '4', '2']) ≠ some [] := by
  decide

/-- C3 (amended): matching the `integer` rule of the grammar
`digit := Range('1','9') | Literal('0')`;
`positive_integer := digit + Repetition(digit)`;
`integer := Literal('0') | positive_integer`
against `"042"` returns a successful MatchResult whose consumed text is
`"0"` and whose remainder is `"42"` (first-match-wins ordered choice: the
`Literal('0')` alternative wins before `positive_integer` is tried). -/
theorem claim3_amended :
    runSuccess (matchM 50 [] integerG ['0', '4', '2']) = true ∧
    runConsumed (matchM 50 [] integerG ['0', '4', '2']) = some ['0'] ∧
    runRemainder (matchM 50 [] integerG ['0', '4', '2']) = some ['4', '2'] := by
  decide

/-- C4 (counterexample): matching the `sum` rule against `" 1 + 23 + -4"`
(with `integer` as in the recursive-grammar scenario, which has no
negative-number alternative) does not leave an empty remainder and does
not consume the whole input: the run stops before `"+ -4"`. -/
theorem claim4_counterexample :
    runSuccess (matchM 80 [] sumG (" 1 + 23 + -4".toList)) = true ∧
    runRemainder (matchM 80 [] sumG (" 1 + 23 + -4".toList)) ≠ some [] ∧
    runConsumed (matchM 80 [] sumG (" 1 + 23 + -4".toList)) ≠ some (" 1 + 23 + -4".toList) := by
  decide

/-- C4 (amended): matching the `sum` rule (built over the
recursive-grammar scenario's `integer`, which cannot match `-4`) against
`" 1 + 23 + -4"` returns a successful MatchResult whose flattened
consumed text is `" 1 + 23 "` and whose remainder is `"+ -4"`: the final
`Repetition(Literal("+") + w_integer)` iteration fails on `"+ -4"` and
the repetition stops there, still reporting success. -/
theorem claim4_amended :
    runSuccess (matchM 80 [] sumG (" 1 + 23 + -4".toList)) = true ∧
    runConsumed (matchM 80 [] sumG (" 1 + 23 + -4".toList)) = some (" 1 + 23 ".toList) ∧
    runRemainder (matchM 80 [] sumG (" 1 + 23 + -4".toList)) = some ("+ -4".toList) := by
  decide

/-- C8: repetition is greedy with no backtracking across combinators:
`Repetition(Literal("a"))` on `"aaa"` succeeds consuming all three
characters with empty remainder, while
`Sequence(Repetition(Literal("a")), Literal("a"))` on `"aaa"` fails (the
repetition consumes every `"a"`, the trailing literal fails on the empty
remainder, and the sequence reports zero consumption of the original
input). -/
theorem claim8_greedy_no_backtracking :
    runSuccess (matchM 20 [] (.repeated "r" (.literal "a" ['a'] true)) ['a', 'a', 'a']) = true ∧
    runConsumed (matchM 20 [] (.repeated "r" (.literal "a" ['a'] true)) ['a', 'a', 'a']) = some ['a', 'a', 'a'] ∧
    runRemainder (matchM 20 [] (.repeated "r" (.literal "a" ['a'] true)) ['a', 'a', 'a']) = some [] ∧
    runSuccess (matchM 20 []
      (.seq "s" [.repeated "r" (.literal "a" ['a'] true), .literal "a" ['a'] true])
      ['a', 'a', 'a']) = false ∧
    runRemainder (matchM 20 []
      (.seq "s" [.repeated "r" (.literal "a" ['a'] true), .literal "a" ['a'] true])
      ['a', 'a', 'a']) = some ['a', 'a', 'a'] := by
  decide

@[simp] theorem MatchRes.successful_mk (b : Bool) (n : String) (t : List Tok)
    (rem : List Char) : (MatchRes.mk b n t rem).successful = b := rfl

@[simp] theorem MatchRes.name_mk (b : Bool) (n : String) (t : List Tok)
    (rem : List Char) : (MatchRes.mk b n t rem).name = n := rfl

@[simp] theorem MatchRes.tokens_mk (b : Bool) (n : String) (t : List Tok)
    (rem : List Char) : (MatchRes.mk b n t rem).tokens = t := rfl

@[simp] theorem MatchRes.remainder_mk (b : Bool) (n : String) (t : List Tok)
    (rem : List Char) : (MatchRes.mk b n t rem).remainder = rem := rfl

@[simp] theorem getMatch_mk (b : Bool) (n : String) (t : List Tok)
    (rem : List Char) : getMatch (.mk b n t rem) = getMatchToks t := by
  simp [getMatch]

@[simp] theorem getMatchToks_nil : getMatchToks [] = [] := by
  simp [getMatchToks]

@[simp] theorem getMatchToks_str (s : List Char) (ts : List Tok) :
    getMatchToks (Tok.str s :: ts) = s ++ getMatchToks ts := by
  simp [getMatchToks]

@[simp] theorem getMatchToks_node (r : MatchRes) (ts : List Tok) :
    getMatchToks (Tok.node r :: ts) = getMatch r ++ getMatchToks ts := by
  simp [getMatchToks]

@[simp] theorem getMatchList_nil : getMatchList [] = [] := rfl

@[simp] theorem getMatchList_cons (r : MatchRes) (rs : List MatchRes) :
    getMatchList (r :: rs) = getMatch r ++ getMatchList rs := rfl

theorem getMatchList_append (xs ys : List MatchRes) :
    getMatchList (xs ++ ys) = getMatchList xs ++ getMatchList ys := by
  induction xs with
  | nil => simp
  | cons x xs ih => simp [ih]

theorem getMatchToks_map_node (rs : List MatchRes) :
    getMatchToks (rs.map Tok.node) = getMatchList rs := by
  induction rs with
  | nil => simp
  | cons r rs ih => simp [ih]

/-- C10: matching a Reference to a bound name delegates wholesale to the
currently-bound matcher: the returned MatchResult is exactly the bound
matcher's result (same success flag, tokens, remainder and label), with
no wrapper node for the reference itself (the extra unit of fuel on the
left accounts only for the delegating call). -/
theorem claim10_ref_delegates (fuel : Nat) (reg : Reg) (n : String)
    (m : Matcher) (src : List Char) (h : regLookup reg n = some m) :
    matchM (fuel + 1) reg (.ref n) src = matchM fuel reg m src := by
  simp [matchM, h]

theorem claim10_witness :
    matchM 3 [("a", Matcher.literal "a" ['a'] true)] (.ref "a") ['a'] =
      matchM 2 [("a", Matcher.literal "a" ['a'] true)] (.literal "a" ['a'] true) ['a'] :=
  claim10_ref_delegates 2 [("a", Matcher.literal "a" ['a'] true)] "a"
    (.literal "a" ['a'] true) ['a'] rfl

/-- C9: for every Negation matcher `Negation(M)`: on empty input it fails
(with empty tokens and empty remainder, i.e. zero consumption); on
non-empty input it succeeds consuming exactly the first character as its
single token whenever `M` fails on that input (whatever `M`'s partial
consumption would have been - `r` is arbitrary), and it fails with zero
consumption whenever `M` succeeds. -/
theorem claim9_negation (fuel : Nat) (reg : Reg) (name : String) (m : Matcher) :
    (matchM (fuel + 1) reg (.notm name m) [] = .ok (.mk false name [] [])) ∧
    (∀ (c : Char) (rest : List Char) (r : MatchRes),
      matchM fuel reg m (c :: rest) = .ok r → r.successful = false →
      matchM (fuel + 1) reg (.notm name m) (c :: rest) =
        .ok (.mk true name [Tok.str [c]] rest)) ∧
    (∀ (c : Char) (rest : List Char) (r : MatchRes),
      matchM fuel reg m (c :: rest) = .ok r → r.successful = true →
      matchM (fuel + 1) reg (.notm name m) (c :: rest) =
        .ok (.mk false name [] (c :: rest))) := by
  refine ⟨by simp [matchM], ?_, ?_⟩ <;>
    intro c rest r h hs <;> simp [matchM, h, hs]

theorem claim9_witness :
    (matchM 3 [] (.notm "n" (.literal "a" ['a'] true)) [] = .ok (.mk false "n" [] [])) ∧
    (matchM 3 [] (.notm "n" (.literal "a" ['a'] true)) ['b'] =
      .ok (.mk true "n" [Tok.str ['b']] [])) ∧
    (matchM 3 [] (.notm "n" (.literal "a" ['a'] true)) ['a'] =
      .ok (.mk false "n" [] ['a'])) :=
  ⟨(claim9_negation 2 [] "n" (.literal "a" ['a'] true)).1,
   (claim9_negation 2 [] "n" (.literal "a" ['a'] true)).2.1 'b' []
     (.mk false "a" [] ['b']) rfl rfl,
   (claim9_negation 2 [] "n" (.literal "a" ['a'] true)).2.2 'a' []
     (.mk true "a" [Tok.str ['a']] []) rfl rfl⟩

theorem anyLoop_all_fail (f : Matcher → List Char → Except MErr MatchRes)
    (name : String) (src : List Char) :
    ∀ ms : List Matcher,
      (∀ m ∈ ms, ∃ r, f m src = .ok r ∧ r.successful = false) →
      anyLoop f name src ms = .ok (.mk false name [] src) := by
  intro ms h
  induction ms with
  | nil => simp [anyLoop]
  | cons m ms ih =>
    obtain ⟨r, hr, hs⟩ := h m (by simp)
    rw [anyLoop, hr]
    simp only [hs]
    exact ih (fun m' hm' => h m' (by simp [hm']))

/-- C7: for every Alternation matcher: the sub-matchers are tried in the
order given; a first successful sub-result is returned wrapped as the
alternation's own success with that sub-result as single child and its
remainder, regardless of the remaining alternatives `ms`; a failing first
alternative reduces the match to the remaining alternatives; and when
every sub-matcher fails (including the zero-sub-matcher case), the
alternation returns an unsuccessful MatchResult with remainder equal to
the original input. -/
theorem claim7_alternation (fuel : Nat) (reg : Reg) (name : String)
    (src : List Char) :
    (matchM (fuel + 1) reg (.any name []) src = .ok (.mk false name [] src)) ∧
    (∀ (m : Matcher) (ms : List Matcher) (r : MatchRes),
      matchM fuel reg m src = .ok r → r.successful = true →
      matchM (fuel + 1) reg (.any name (m :: ms)) src =
        .ok (.mk true name [Tok.node r] r.remainder)) ∧
    (∀ (m : Matcher) (ms : List Matcher) (r : MatchRes),
      matchM fuel reg m src = .ok r → r.successful = false →
      matchM (fuel + 1) reg (.any name (m :: ms)) src =
        matchM (fuel + 1) reg (.any name ms) src) ∧
    (∀ ms : List Matcher,
      (∀ m ∈ ms, ∃ r, matchM fuel reg m src = .ok r ∧ r.successful = false) →
      matchM (fuel + 1) reg (.any name ms) src = .ok (.mk false name [] src)) := by
  refine ⟨by simp [matchM, anyLoop], ?_, ?_, ?_⟩
  · intro m ms r h hs
    simp [matchM, anyLoop, h, hs]
  · intro m ms r h hs
    simp [matchM, anyLoop, h, hs]
  · intro ms h
    rw [matchM]
    exact anyLoop_all_fail (matchM fuel reg) name src ms h

theorem claim7_witness :
    (matchM 1 [] (.any "A" []) ['a'] = .ok (.mk false "A" [] ['a'])) ∧
    (matchM 2 [] (.any "A" [.literal "a" ['a'] true, .literal "x" ['a'] true]) ['a'] =
      .ok (.mk true "A" [Tok.node (.mk true "a" [Tok.str ['a']] [])] [])) ∧
    (matchM 2 [] (.any "A" [.literal "b" ['b'] true, .literal "a" ['a'] true]) ['a'] =
      matchM 2 [] (.any "A" [.literal "a" ['a'] true]) ['a']) ∧
    (matchM 2 [] (.any "A" [.literal "b" ['b'] true]) ['a'] =
      .ok (.mk false "A" [] ['a'])) :=
  ⟨(claim7_alternation 0 [] "A" ['a']).1,
   (claim7_alternation 1 [] "A" ['a']).2.1 (.literal "a" ['a'] true)
     [.literal "x" ['a'] true] (.mk true "a" [Tok.str ['a']] []) rfl rfl,
   (claim7_alternation 1 [] "A" ['a']).2.2.1 (.literal "b" ['b'] true)
     [.literal "a" ['a'] true] (.mk false "b" [] ['a']) rfl rfl,
   (claim7_alternation 1 [] "A" ['a']).2.2.2 [.literal "b" ['b'] true]
     (by
       intro m hm
       rw [List.mem_singleton] at hm
       subst hm
       exact ⟨.mk false "b" [] ['a'], rfl, rfl⟩)⟩

/-- C5: matching a Reference whose name is unbound in the registry
returns the fatal `unknownReference` error (the `KeyError` of the source)
rather than an unsuccessful MatchResult, and a fatal error arising from a
sub-match propagates unchanged through an enclosing Optional, through an
enclosing Alternation (including past earlier alternatives that fail as
ordinary mismatches), and through an enclosing Negation on the non-empty
input that makes it invoke its sub-matcher - none of these combinators
absorbs the error as an ordinary match failure. -/
theorem claim5_unknown_reference (fuel : Nat) (reg : Reg) (src : List Char) :
    (∀ n : String, regLookup reg n = none →
      matchM (fuel + 1) reg (.ref n) src = .error (.unknownReference n)) ∧
    (∀ (name : String) (m : Matcher) (e : MErr),
      matchM fuel reg m src = .error e →
      matchM (fuel + 1) reg (.opt name m) src = .error e) ∧
    (∀ (name : String) (m : Matcher) (ms : List Matcher) (e : MErr),
      matchM fuel reg m src = .error e →
      matchM (fuel + 1) reg (.any name (m :: ms)) src = .error e) ∧
    (∀ (name : String) (m : Matcher) (ms : List Matcher) (r : MatchRes),
      matchM fuel reg m src = .ok r → r.successful = false →
      matchM (fuel + 1) reg (.any name (m :: ms)) src =
        matchM (fuel + 1) reg (.any name ms) src) ∧
    (∀ (name : String) (m : Matcher) (c : Char) (rest : List Char) (e : MErr),
      src = c :: rest →
      matchM fuel reg m src = .error e →
      matchM (fuel + 1) reg (.notm name m) src = .error e) := by
  refine ⟨?_, ?_, ?_, ?_, ?_⟩
  · intro n h
    simp [matchM, h]
  · intro name m e h
    simp [matchM, h]
  · intro name m ms e h
    simp [matchM, anyLoop, h]
  · intro name m ms r h hs
    simp [matchM, anyLoop, h, hs]
  · intro name m c rest e hsrc h
    subst hsrc
    simp [matchM, h]

theorem claim5_witness :
    (matchM 1 [] (.ref "u") ['x'] = .error (.unknownReference "u")) ∧
    (matchM 2 [] (.opt "o" (.ref "u")) ['x'] = .error (.unknownReference "u")) ∧
    (matchM 2 [] (.any "A" [.ref "u", .literal "a" ['a'] true]) ['x'] =
      .error (.unknownReference "u")) ∧
    (matchM 2 [] (.any "A" [.literal "a" ['a'] true, .ref "u"]) ['x'] =
      matchM 2 [] (.any "A" [.ref "u"]) ['x']) ∧
    (matchM 2 [] (.notm "n" (.ref "u")) ['x'] = .error (.unknownReference "u")) :=
  ⟨(claim5_unknown_reference 0 [] ['x']).1 "u" rfl,
   (claim5_unknown_reference 1 [] ['x']).2.1 "o" (.ref "u") (.unknownReference "u") rfl,
   (claim5_unknown_reference 1 [] ['x']).2.2.1 "A" (.ref "u")
     [.literal "a" ['a'] true] (.unknownReference "u") rfl,
   (claim5_unknown_reference 1 [] ['x']).2.2.2.1 "A" (.literal "a" ['a'] true)
     [.ref "u"] (.mk false "a" [] ['x']) rfl rfl,
   (claim5_unknown_reference 1 [] ['x']).2.2.2.2 "n" (.ref "u") 'x' []
     (.unknownReference "u") rfl rfl⟩

/-- C2: inside the greedy loop of a Repetition matcher, on non-empty
remaining input `c :: rest`, a successful sub-match that consumes zero
characters (`r.remainder = c :: rest`) is tolerated when the `loop_watch`
flag is clear: the zero-width sub-result is appended and the loop
continues with the flag set.  A second consecutive zero-consumption
success (flag already set) raises the fatal `infiniteLoop` error naming
the Repetition matcher.  A consuming success (`r.remainder ≠ c :: rest`)
continues the loop with the flag cleared, so the tolerance is reset.  The
final conjunct ties the loop to `RepeatedMatcher.match`: the matcher
enters the loop with the flag clear and no accumulated results. -/
theorem claim2_nonprogress_guard (fuel : Nat) (reg : Reg) (name : String)
    (m : Matcher) (matched : List MatchRes) (c : Char) (rest : List Char)
    (r : MatchRes) (h : matchM fuel reg m (c :: rest) = .ok r)
    (hs : r.successful = true) :
    (r.remainder = c :: rest → ∀ budget : Nat,
      repLoop (matchM fuel reg) name m (budget + 1) false matched (c :: rest) =
        repLoop (matchM fuel reg) name m budget true (matched ++ [r]) (c :: rest)) ∧
    (r.remainder = c :: rest → ∀ budget : Nat,
      repLoop (matchM fuel reg) name m (budget + 1) true matched (c :: rest) =
        .error (.infiniteLoop name)) ∧
    (r.remainder ≠ c :: rest → ∀ (budget : Nat) (lw : Bool),
      repLoop (matchM fuel reg) name m (budget + 1) lw matched (c :: rest) =
        repLoop (matchM fuel reg) name m budget false (matched ++ [r]) r.remainder) ∧
    matchM (fuel + 1) reg (.repeated name m) (c :: rest) =
      repLoop (matchM fuel reg) name m fuel false [] (c :: rest) := by
  refine ⟨?_, ?_, ?_, by simp [matchM]⟩
  · intro hrem budget
    simp [repLoop, h, hs, hrem]
  · intro hrem budget
    simp [repLoop, h, hs, hrem]
  · intro hrem budget lw
    simp [repLoop, h, hs, hrem]

theorem claim2_witness :
    (repLoop (matchM 1 []) "R" (.literal "e" [] true) 2 false [] ['x'] =
      repLoop (matchM 1 []) "R" (.literal "e" [] true) 1 true
        [.mk true "e" [Tok.str []] ['x']] ['x']) ∧
    (repLoop (matchM 1 []) "R" (.literal "e" [] true) 1 true [] ['x'] =
      .error (.infiniteLoop "R")) ∧
    (repLoop (matchM 1 []) "R" (.literal "x" ['x'] true) 1 false [] ['x'] =
      repLoop (matchM 1 []) "R" (.literal "x" ['x'] true) 0 false
        [.mk true "x" [Tok.str ['x']] []] []) ∧
    (matchM 2 [] (.repeated "R" (.literal "e" [] true)) ['x'] =
      repLoop (matchM 1 []) "R" (.literal "e" [] true) 1 false [] ['x']) :=
  ⟨(claim2_nonprogress_guard 1 [] "R" (.literal "e" [] true) [] 'x' []
      (.mk true "e" [Tok.str []] ['x']) rfl rfl).1 rfl 1,
   (claim2_nonprogress_guard 1 [] "R" (.literal "e" [] true) [] 'x' []
      (.mk true "e" [Tok.str []] ['x']) rfl rfl).2.1 rfl 0,
   (claim2_nonprogress_guard 1 [] "R" (.literal "x" ['x'] true) [] 'x' []
      (.mk true "x" [Tok.str ['x']] []) rfl rfl).2.2.1 (by decide) 0 false,
   (claim2_nonprogress_guard 1 [] "R" (.literal "e" [] true) [] 'x' []
      (.mk true "e" [Tok.str []] ['x']) rfl rfl).2.2.2⟩

theorem seqLoop_seqRun_append (f : Matcher → List Char → Except MErr MatchRes)
    (name : String) (source : List Char) {pre : List Matcher}
    {src src' : List Char} {rs : List MatchRes}
    (h : SeqRun f pre src rs src') :
    ∀ (rest : List Matcher) (matched : List MatchRes),
      seqLoop f name source (pre ++ rest) src matched =
        seqLoop f name source rest src' (matched ++ rs) := by
  induction h with
  | nil src => intro rest matched; simp
  | cons hf hs hrun ih =>
    intro rest matched
    simp only [List.cons_append, seqLoop, hf, hs, if_true, List.append_eq]
    rw [ih rest _]
    simp [List.append_assoc]

theorem seqLoop_ok_inv (f : Matcher → List Char → Except MErr MatchRes)
    (name : String) (source : List Char) :
    ∀ (ms : List Matcher) (src : List Char) (matched : List MatchRes)
      (r : MatchRes), seqLoop f name source ms src matched = .ok r →
      (r.successful = false → r.tokens = [] ∧ r.remainder = source) ∧
      (r.successful = true → ∃ rs, SeqRun f ms src rs r.remainder ∧
        r.tokens = (matched ++ rs).map Tok.node) := by
  intro ms
  induction ms with
  | nil =>
    intro src matched r h
    simp only [seqLoop, Except.ok.injEq] at h
    subst h
    constructor
    · intro hs; simp at hs
    · intro _
      exact ⟨[], by simpa using SeqRun.nil src, by simp⟩
  | cons m ms ih =>
    intro src matched r h
    cases hf : f m src with
    | error e =>
      simp only [seqLoop, hf] at h
      exact (Except.noConfusion h)
    | ok r' =>
      by_cases hs' : r'.successful = true
      · simp only [seqLoop, hf, hs', if_true] at h
        refine ⟨((ih _ _ _ h).1), fun hs => ?_⟩
        obtain ⟨rs, hrun, htoks⟩ := (ih _ _ _ h).2 hs
        exact ⟨r' :: rs, SeqRun.cons hf hs' hrun,
          by rw [htoks]; simp⟩
      · rw [Bool.not_eq_true] at hs'
        simp only [seqLoop, hf, hs', Bool.false_eq_true, if_false,
          Except.ok.injEq] at h
        constructor
        · intro _; rw [← h]; simp
        · intro hs; rw [← h] at hs; simp at hs

/-- C6: for every Sequence matcher and every input: an unsuccessful
result has empty children and remainder equal to the original input
(zero consumption, never a partial commit); a successful result's
children are the ordered list of each sub-match's MatchResult with the
remainder after the last sub-match (`SeqRun` spells this run out); any
such complete run of successes conversely yields exactly that success;
and as soon as one sub-matcher fails - after whatever prefix of
sub-matchers already succeeded - the whole sequence returns the
unsuccessful zero-consumption result against the original input,
ignoring the sub-matchers after the failing one. -/
theorem claim6_sequence (fuel : Nat) (reg : Reg) (name : String)
    (ms : List Matcher) (src : List Char) :
    (∀ r : MatchRes, matchM (fuel + 1) reg (.seq name ms) src = .ok r →
      r.successful = false → r.tokens = [] ∧ r.remainder = src) ∧
    (∀ r : MatchRes, matchM (fuel + 1) reg (.seq name ms) src = .ok r →
      r.successful = true → ∃ rs : List MatchRes,
        SeqRun (matchM fuel reg) ms src rs r.remainder ∧
        r.tokens = rs.map Tok.node) ∧
    (∀ (rs : List MatchRes) (out : List Char),
      SeqRun (matchM fuel reg) ms src rs out →
      matchM (fuel + 1) reg (.seq name ms) src =
        .ok (.mk true name (rs.map Tok.node) out)) ∧
    (∀ (pre post : List Matcher) (bad : Matcher) (rs : List MatchRes)
      (src' : List Char) (r' : MatchRes),
      ms = pre ++ bad :: post →
      SeqRun (matchM fuel reg) pre src rs src' →
      matchM fuel reg bad src' = .ok r' → r'.successful = false →
      matchM (fuel + 1) reg (.seq name ms) src = .ok (.mk false name [] src)) := by
  refine ⟨?_, ?_, ?_, ?_⟩
  · intro r h hs
    rw [matchM] at h
    exact (seqLoop_ok_inv (matchM fuel reg) name src ms src [] r h).1 hs
  · intro r h hs
    obtain ⟨rs, hrun, htoks⟩ :=
      (seqLoop_ok_inv (matchM fuel reg) name src ms src [] r
        (by rw [matchM] at h; exact h)).2 hs
    exact ⟨rs, hrun, by simpa using htoks⟩
  · intro rs out hrun
    rw [matchM]
    have := seqLoop_seqRun_append (matchM fuel reg) name src hrun [] []
    rw [List.append_nil] at this
    rw [this]
    simp [seqLoop]
  · intro pre post bad rs src' r' hms hrun hbad hs
    rw [matchM, hms,
      seqLoop_seqRun_append (matchM fuel reg) name src hrun (bad :: post) []]
    simp only [seqLoop, hbad, hs, Bool.false_eq_true, if_false]

theorem claim6_witness :
    ((MatchRes.mk false "s" [] ['a', 'x']).tokens = [] ∧
      (MatchRes.mk false "s" [] ['a', 'x']).remainder = ['a', 'x']) ∧
    (∃ rs : List MatchRes,
      SeqRun (matchM 2 [])
        [.literal "a" ['a'] true, .literal "b" ['b'] true] ['a', 'b'] rs
        (MatchRes.mk true "s"
          [Tok.node (.mk true "a" [Tok.str ['a']] ['b']),
           Tok.node (.mk true "b" [Tok.str ['b']] [])] []).remainder ∧
      (MatchRes.mk true "s"
        [Tok.node (.mk true "a" [Tok.str ['a']] ['b']),
         Tok.node (.mk true "b" [Tok.str ['b']] [])] []).tokens =
        rs.map Tok.node) ∧
    (matchM 3 [] (.seq "s" [.literal "a" ['a'] true, .literal "b" ['b'] true])
      ['a', 'b'] =
      .ok (.mk true "s"
        [Tok.node (.mk true "a" [Tok.str ['a']] ['b']),
         Tok.node (.mk true "b" [Tok.str ['b']] [])] [])) ∧
    (matchM 3 [] (.seq "s" [.literal "a" ['a'] true, .literal "b" ['b'] true])
      ['a', 'x'] = .ok (.mk false "s" [] ['a', 'x'])) :=
  ⟨(claim6_sequence 2 [] "s" [.literal "a" ['a'] true, .literal "b" ['b'] true]
      ['a', 'x']).1 (.mk false "s" [] ['a', 'x']) rfl rfl,
   (claim6_sequence 2 [] "s" [.literal "a" ['a'] true, .literal "b" ['b'] true]
      ['a', 'b']).2.1
      (.mk true "s"
        [Tok.node (.mk true "a" [Tok.str ['a']] ['b']),
         Tok.node (.mk true "b" [Tok.str ['b']] [])] []) rfl rfl,
   (claim6_sequence 2 [] "s" [.literal "a" ['a'] true, .literal "b" ['b'] true]
      ['a', 'b']).2.2.1
      [.mk true "a" [Tok.str ['a']] ['b'], .mk true "b" [Tok.str ['b']] []] []
      (SeqRun.cons rfl rfl (SeqRun.cons rfl rfl (SeqRun.nil []))),
   (claim6_sequence 2 [] "s" [.literal "a" ['a'] true, .literal "b" ['b'] true]
      ['a', 'x']).2.2.2 [.literal "a" ['a'] true] [] (.literal "b" ['b'] true)
      [.mk true "a" [Tok.str ['a']] ['x']] ['x'] (.mk false "b" [] ['x']) rfl
      (SeqRun.cons rfl rfl (SeqRun.nil ['x'])) rfl rfl⟩

theorem nil_of_append_eq_self {α : Type} {a b : List α} (h : a ++ b = b) :
    a = [] := by
  have hl := congrArg List.length h
  simp only [List.length_append] at hl
  exact List.eq_nil_of_length_eq_zero (by omega)

theorem csOnlyList_mem {ms : List Matcher} {m : Matcher}
    (hcs : csOnlyList ms = true) (hm : m ∈ ms) : csOnly m = true := by
  induction ms with
  | nil => cases hm
  | cons x xs ih =>
    simp only [csOnlyList, Bool.and_eq_true] at hcs
    rcases List.mem_cons.1 hm with rfl | hm'
    · exact hcs.1
    · exact ih hcs.2 hm'

theorem regLookup_cs {reg : Reg} {n : String} {m : Matcher}
    (h : regLookup reg n = some m) (hreg : regCS reg = true) :
    csOnly m = true := by
  induction reg with
  | nil => exact Option.noConfusion h
  | cons p rest ih =>
    obtain ⟨k, v⟩ := p
    simp only [regCS, Bool.and_eq_true] at hreg
    by_cases hk : k = n
    · rw [regLookup, if_pos hk] at h
      cases h
      exact hreg.1
    · rw [regLookup, if_neg hk] at h
      exact ih h hreg.2

theorem anyLoop_fail_inv (f : Matcher → List Char → Except MErr MatchRes)
    (name : String) (source : List Char) :
    ∀ (ms : List Matcher) (r : MatchRes), anyLoop f name source ms = .ok r →
      r.successful = false → r.tokens = [] ∧ r.remainder = source := by
  intro ms
  induction ms with
  | nil =>
    intro r h hs
    simp only [anyLoop, Except.ok.injEq] at h
    subst h
    exact ⟨rfl, rfl⟩
  | cons m ms ih =>
    intro r h hs
    cases hf : f m source with
    | error e =>
      simp only [anyLoop, hf] at h
      exact Except.noConfusion h
    | ok r' =>
      by_cases hs' : r'.successful = true
      · simp only [anyLoop, hf, hs', if_true, Except.ok.injEq] at h
        subst h
        simp at hs
      · rw [Bool.not_eq_true] at hs'
        simp only [anyLoop, hf, hs', Bool.false_eq_true, if_false] at h
        exact ih r h hs

theorem repLoop_ok_successful (f : Matcher → List Char → Except MErr MatchRes)
    (name : String) (m : Matcher) :
    ∀ (budget : Nat) (lw : Bool) (matched : List MatchRes) (src : List Char)
      (r : MatchRes), repLoop f name m budget lw matched src = .ok r →
      r.successful = true := by
  intro budget
  induction budget with
  | zero =>
    intro lw matched src r h
    cases src with
    | nil =>
      simp only [repLoop, Except.ok.injEq] at h
      subst h
      rfl
    | cons c rest =>
      simp only [repLoop] at h
      exact Except.noConfusion h
  | succ budget ih =>
    intro lw matched src r h
    cases src with
    | nil =>
      simp only [repLoop, Except.ok.injEq] at h
      subst h
      rfl
    | cons c rest =>
      cases hf : f m (c :: rest) with
      | error e =>
        simp only [repLoop, hf] at h
        exact Except.noConfusion h
      | ok r' =>
        by_cases hs' : r'.successful = true
        · by_cases hrem : r'.remainder = c :: rest
          · cases lw with
            | false =>
              simp only [repLoop, hf, hs', hrem, if_true, if_pos] at h
              exact ih _ _ _ _ h
            | true =>
              simp only [repLoop, hf, hs', hrem, if_true, if_pos] at h
              exact Except.noConfusion h
          · simp only [repLoop, hf, hs', if_true, if_neg hrem] at h
            exact ih _ _ _ _ h
        · rw [Bool.not_eq_true] at hs'
          simp only [repLoop, hf, hs', Bool.false_eq_true, if_false,
            Except.ok.injEq] at h
          subst h
          rfl

theorem matchM_fail_inv :
    ∀ (fuel : Nat) (reg : Reg) (m : Matcher) (src : List Char) (r : MatchRes),
      matchM fuel reg m src = .ok r → r.successful = false →
      r.tokens = [] ∧ r.remainder = src := by
  intro fuel
  induction fuel with
  | zero =>
    intro reg m src r h _
    exact Except.noConfusion h
  | succ fuel ih =>
    intro reg m src r h hs
    cases m with
    | literal name lit cs =>
      simp only [matchM] at h
      split at h <;> split at h <;>
        simp only [Except.ok.injEq] at h <;> subst h <;>
        first
          | exact ⟨rfl, rfl⟩
          | simp at hs
    | range name lo hi loInc hiInc =>
      cases src with
      | nil =>
        simp only [matchM, Except.ok.injEq] at h
        subst h
        exact ⟨rfl, rfl⟩
      | cons head rest =>
        simp only [matchM] at h
        split at h <;> split at h <;> split at h <;>
          simp only [Except.ok.injEq] at h <;> subst h <;>
          first
            | exact ⟨rfl, rfl⟩
            | simp at hs
    | opt name sub =>
      simp only [matchM] at h
      cases hf : matchM fuel reg sub src with
      | error e =>
        rw [hf] at h
        exact Except.noConfusion h
      | ok r' =>
        rw [hf] at h
        by_cases hs' : r'.successful = true
        · simp only [hs', if_true, Except.ok.injEq] at h
          subst h
          simp at hs
        · rw [Bool.not_eq_true] at hs'
          simp only [hs', Bool.false_eq_true, if_false, Except.ok.injEq] at h
          subst h
          simp at hs
    | any name ms =>
      rw [matchM] at h
      exact anyLoop_fail_inv (matchM fuel reg) name src ms r h hs
    | seq name ms =>
      rw [matchM] at h
      exact (seqLoop_ok_inv (matchM fuel reg) name src ms src [] r h).1 hs
    | repeated name sub =>
      rw [matchM] at h
      rw [repLoop_ok_successful (matchM fuel reg) name sub fuel false [] src r h]
        at hs
      exact Bool.noConfusion hs
    | ref rn =>
      simp only [matchM] at h
      cases hl : regLookup reg rn with
      | some sub =>
        rw [hl] at h
        exact ih reg sub src r h hs
      | none =>
        rw [hl] at h
        exact Except.noConfusion h
    | notm name sub =>
      cases src with
      | nil =>
        simp only [matchM, Except.ok.injEq] at h
        subst h
        exact ⟨rfl, rfl⟩
      | cons head rest =>
        simp only [matchM] at h
        cases hf : matchM fuel reg sub (head :: rest) with
        | error e =>
          rw [hf] at h
          exact Except.noConfusion h
        | ok r' =>
          rw [hf] at h
          by_cases hs' : r'.successful = true
          · simp only [hs', if_true, Except.ok.injEq] at h
            subst h
            exact ⟨rfl, rfl⟩
          · rw [Bool.not_eq_true] at hs'
            simp only [hs', Bool.false_eq_true, if_false, Except.ok.injEq] at h
            subst h
            simp at hs

@[simp] theorem getMatch_eq_toks (r : MatchRes) :
    getMatch r = getMatchToks r.tokens := by
  cases r with
  | mk b n t rem => simp

theorem seqRun_consumption {f : Matcher → List Char → Except MErr MatchRes}
    (HF : CsSound f) {ms : List Matcher} {src out : List Char}
    {rs : List MatchRes} (hrun : SeqRun f ms src rs out)
    (hcs : csOnlyList ms = true) : getMatchList rs ++ out = src := by
  induction hrun with
  | nil src => simp
  | cons hf hs hrun ih =>
    rename_i m ms src out r rs
    simp only [csOnlyList, Bool.and_eq_true] at hcs
    have h1 := HF m src r hcs.1 hf hs
    have h2 := ih hcs.2
    rw [getMatchList_cons, List.append_assoc, h2, h1]

theorem anyLoop_succ_inv {f : Matcher → List Char → Except MErr MatchRes}
    (HF : CsSound f) (name : String) (source : List Char) :
    ∀ (ms : List Matcher) (r : MatchRes), csOnlyList ms = true →
      anyLoop f name source ms = .ok r → r.successful = true →
      getMatch r ++ r.remainder = source := by
  intro ms
  induction ms with
  | nil =>
    intro r hcs h hs
    simp only [anyLoop, Except.ok.injEq] at h
    subst h
    simp at hs
  | cons m ms ih =>
    intro r hcs h hs
    simp only [csOnlyList, Bool.and_eq_true] at hcs
    cases hf : f m source with
    | error e =>
      simp only [anyLoop, hf] at h
      exact Except.noConfusion h
    | ok r' =>
      by_cases hs' : r'.successful = true
      · simp only [anyLoop, hf, hs', if_true, Except.ok.injEq] at h
        subst h
        simpa using HF m source r' hcs.1 hf hs'
      · rw [Bool.not_eq_true] at hs'
        simp only [anyLoop, hf, hs', Bool.false_eq_true, if_false] at h
        exact ih r hcs.2 h hs

theorem repLoop_succ_inv {f : Matcher → List Char → Except MErr MatchRes}
    (HF : CsSound f) (name : String) (m : Matcher) (hcs : csOnly m = true) :
    ∀ (budget : Nat) (lw : Bool) (matched : List MatchRes) (src : List Char)
      (r : MatchRes), repLoop f name m budget lw matched src = .ok r →
      getMatch r ++ r.remainder = getMatchList matched ++ src := by
  intro budget
  induction budget with
  | zero =>
    intro lw matched src r h
    cases src with
    | nil =>
      simp only [repLoop, Except.ok.injEq] at h
      subst h
      simp [getMatchToks_map_node]
    | cons c rest =>
      simp only [repLoop] at h
      exact Except.noConfusion h
  | succ budget ih =>
    intro lw matched src r h
    cases src with
    | nil =>
      simp only [repLoop, Except.ok.injEq] at h
      subst h
      simp [getMatchToks_map_node]
    | cons c rest =>
      cases hf : f m (c :: rest) with
      | error e =>
        simp only [repLoop, hf] at h
        exact Except.noConfusion h
      | ok r' =>
        by_cases hs' : r'.successful = true
        · have htot := HF m (c :: rest) r' hcs hf hs'
          by_cases hrem : r'.remainder = c :: rest
          · cases lw with
            | true =>
              simp only [repLoop, hf, hs', hrem, if_true, if_pos] at h
              exact Except.noConfusion h
            | false =>
              simp only [repLoop, hf, hs', hrem, if_true, if_pos] at h
              have hz : getMatch r' = [] := by
                rw [hrem] at htot
                exact nil_of_append_eq_self htot
              simp only [getMatch_eq_toks] at hz
              rw [ih _ _ _ _ h, getMatchList_append]
              simp [hz]
          · simp only [repLoop, hf, hs', if_true, if_neg hrem] at h
            calc getMatch r ++ r.remainder
                = getMatchList (matched ++ [r']) ++ r'.remainder :=
                  ih _ _ _ _ h
              _ = getMatchList matched ++ (getMatch r' ++ r'.remainder) := by
                  rw [getMatchList_append]
                  simp [List.append_assoc]
              _ = getMatchList matched ++ (c :: rest) := by rw [htot]
        · rw [Bool.not_eq_true] at hs'
          simp only [repLoop, hf, hs', Bool.false_eq_true, if_false,
            Except.ok.injEq] at h
          subst h
          simp [getMatchToks_map_node]

theorem matchM_succ_inv :
    ∀ (fuel : Nat) (reg : Reg) (m : Matcher) (src : List Char) (r : MatchRes),
      regCS reg = true → csOnly m = true → matchM fuel reg m src = .ok r →
      r.successful = true → getMatch r ++ r.remainder = src := by
  intro fuel
  induction fuel with
  | zero =>
    intro reg m src r _ _ h _
    exact Except.noConfusion h
  | succ fuel ih =>
    intro reg m src r hreg hcs h hs
    have HF : CsSound (matchM fuel reg) :=
      fun m' src' r' hcs' h' hs' => ih reg m' src' r' hreg hcs' h' hs'
    cases m with
    | literal name lit cs =>
      simp only [csOnly] at hcs
      simp only [matchM] at h
      split at h
      · split at h
        · simp only [Except.ok.injEq] at h
          subst h
          rename_i hpre
          obtain ⟨t, rfl⟩ := List.isPrefixOf_iff_prefix.mp hpre
          simp [List.drop_left]
        · simp only [Except.ok.injEq] at h
          subst h
          simp at hs
      · rename_i hcs'
        exact absurd hcs hcs'
    | range name lo hi loInc hiInc =>
      cases src with
      | nil =>
        simp only [matchM, Except.ok.injEq] at h
        subst h
        simp at hs
      | cons head rest =>
        simp only [matchM] at h
        split at h <;> split at h <;> split at h <;>
          simp only [Except.ok.injEq] at h <;> subst h <;> simp
    | opt name sub =>
      simp only [csOnly] at hcs
      simp only [matchM] at h
      cases hf : matchM fuel reg sub src with
      | error e =>
        rw [hf] at h
        exact Except.noConfusion h
      | ok r' =>
        rw [hf] at h
        by_cases hs' : r'.successful = true
        · simp only [hs', if_true, Except.ok.injEq] at h
          subst h
          simpa using HF sub src r' hcs hf hs'
        · rw [Bool.not_eq_true] at hs'
          simp only [hs', Bool.false_eq_true, if_false, Except.ok.injEq] at h
          subst h
          simp
    | any name ms =>
      simp only [csOnly] at hcs
      rw [matchM] at h
      exact anyLoop_succ_inv HF name src ms r hcs h hs
    | seq name ms =>
      simp only [csOnly] at hcs
      rw [matchM] at h
      obtain ⟨rs, hrun, htoks⟩ :=
        (seqLoop_ok_inv (matchM fuel reg) name src ms src [] r h).2 hs
      rw [getMatch_eq_toks, htoks]
      simp only [List.nil_append, getMatchToks_map_node]
      exact seqRun_consumption HF hrun hcs
    | repeated name sub =>
      simp only [csOnly] at hcs
      rw [matchM] at h
      simpa using repLoop_succ_inv HF name sub hcs fuel false [] src r h
    | ref rn =>
      simp only [matchM] at h
      cases hl : regLookup reg rn with
      | some sub =>
        rw [hl] at h
        exact ih reg sub src r hreg (regLookup_cs hl hreg) h hs
      | none =>
        rw [hl] at h
        exact Except.noConfusion h
    | notm name sub =>
      cases src with
      | nil =>
        simp only [matchM, Except.ok.injEq] at h
        subst h
        simp at hs
      | cons head rest =>
        simp only [matchM] at h
        cases hf : matchM fuel reg sub (head :: rest) with
        | error e =>
          rw [hf] at h
          exact Except.noConfusion h
        | ok r' =>
          rw [hf] at h
          by_cases hs' : r'.successful = true
          · simp only [hs', if_true, Except.ok.injEq] at h
            subst h
            simp at hs
          · rw [Bool.not_eq_true] at hs'
            simp only [hs', Bool.false_eq_true, if_false, Except.ok.injEq] at h
            subst h
            simp

/-- C1 (counterexample): the invariant fails as stated for a
case-insensitive Literal matcher.  `LiteralMatcher("l", "A",
case_sensitive=False)` on input `"a"` succeeds, but its consumed text is
the literal's own casing `"A"` (the token pushed is `self.literal`), so
concatenating the children and appending the remainder gives `"A"`, not
the input `"a"`: the children do not reproduce the consumed prefix of
the input. -/
theorem claim1_counterexample :
    runSuccess (matchM 2 [] (.literal "l" ['A'] false) ['a']) = true ∧
    runTotal (matchM 2 [] (.literal "l" ['A'] false) ['a']) = some ['A'] ∧
    runTotal (matchM 2 [] (.literal "l" ['A'] false) ['a']) ≠ some ['a'] := by
  decide

/-- C1 (amended): for every matcher variant and every input string, when
the run completes: if the returned MatchResult is successful AND every
Literal matcher reachable in the matcher (and in the registry) is
case-sensitive, then concatenating in order the consumed text of every
child (recursively, `getMatch`) and appending the remainder yields
exactly the input given to that matcher (equivalently, the children
concatenation is the consumed prefix and consumed prefix + remainder =
input); if the returned MatchResult is unsuccessful, then - with no
case-sensitivity restriction - its children list is empty and its
remainder equals the input given to that matcher. -/
theorem claim1_invariant (fuel : Nat) (reg : Reg) (m : Matcher)
    (src : List Char) (r : MatchRes) (h : matchM fuel reg m src = .ok r) :
    (csOnly m = true → regCS reg = true → r.successful = true →
      getMatch r ++ r.remainder = src) ∧
    (r.successful = false → r.tokens = [] ∧ r.remainder = src) :=
  ⟨fun hcs hreg hs => matchM_succ_inv fuel reg m src r hreg hcs h hs,
   fun hs => matchM_fail_inv fuel reg m src r h hs⟩

theorem claim1_witness :
    (getMatch (.mk true "l" [Tok.str ['a']] ['b']) ++ ['b'] = ['a', 'b']) ∧
    ((MatchRes.mk false "l" [] ['x']).tokens = [] ∧
      (MatchRes.mk false "l" [] ['x']).remainder = ['x']) :=
  ⟨(claim1_invariant 2 [] (.literal "l" ['a'] true) ['a', 'b']
      (.mk true "l" [Tok.str ['a']] ['b']) rfl).1 rfl rfl rfl,
   (claim1_invariant 2 [] (.literal "l" ['a'] true) ['x']
      (.mk false "l" [] ['x']) rfl).2 rfl⟩
